import Mathlib

/-!
Verification of the PostgreSQL adapter of the graphql-inspector data package
(src/packages/data/src/db/postgresql/postgresql-adapter.ts).

The development shallowly embeds the adapter. Storage is modelled as an
explicit database value holding the six relations; the knex client is
modelled as a flag on the adapter that is set by init. Each storage call of
the source goes through the client getter, which throws when the flag is
unset; the effectful model threads this check through every step. The data
semantics of a trace write under an open client is the pure function
writeTracePure, which mirrors the source statement by statement.

The modules normalize/operation, normalize/trace and helpers are imported
by the adapter but are not part of the given sources; their functions
(operationSignature, normalizeTraceNode, flatten) are modelled from the
specification, as documented on each definition.
-/

set_option autoImplicit false

/-- Error attached to a trace node or to the root entry, with a message and
a json payload, as in the Trace type of section 6 of the specification. -/
structure TraceError where
  message : String
  json : String
  deriving DecidableEq, Repr

mutual
/-- A node of the nested execution trace: owning type, field name, timing
window, errors and nested children, as in section 6 of the specification.
The children array is its own inductive so that traversals are structural
and compute inside the kernel. -/
inductive TraceNode where
  | node (parentType : String) (field : String)
      (startTime endTime : Nat)
      (errors : List TraceError) (children : TraceNodeList)
  deriving Repr

/-- Children array of a trace node. -/
inductive TraceNodeList where
  | nil
  | cons (head : TraceNode) (tail : TraceNodeList)
  deriving Repr
end

/-- The root entry of a trace: its own error list and the child field
executions. The adapter reads entry.errors directly and hands the entry to
the trace normalizer. -/
structure TraceEntry where
  errors : List TraceError
  children : TraceNodeList
  deriving Repr

/-- One ingested trace, as consumed by writeTrace. -/
structure Trace where
  query : String
  operationName : String
  startTime : Nat
  duration : Nat
  parsing : Nat
  validation : Nat
  execution : Nat
  entry : TraceEntry
  deriving Repr

/-- A report is a batch of traces, as consumed by writeReport. -/
structure Report where
  traces : List Trace
  deriving Repr

/-- Row of the Operations relation. -/
structure OperationModel where
  id : Nat
  operation : String
  name : String
  signature : String
  deriving DecidableEq, Repr

/-- Row of the Fields relation. -/
structure FieldModel where
  id : Nat
  type : String
  name : String
  deriving DecidableEq, Repr

/-- Row of the OperationsFields junction relation. -/
structure OperationFieldModel where
  fieldId : Nat
  operationId : Nat
  deriving DecidableEq, Repr

/-- Row of the OperationTraces relation. -/
structure OperationTraceModel where
  id : Nat
  operationId : Nat
  startTime : Nat
  duration : Nat
  parsing : Nat
  validation : Nat
  execution : Nat
  deriving DecidableEq, Repr

/-- Row of the FieldTraces relation. -/
structure FieldTraceModel where
  id : Nat
  path : String
  fieldId : Nat
  operationTraceId : Nat
  startTime : Nat
  endTime : Nat
  deriving DecidableEq, Repr

/-- Row of the Errors relation. Exactly the columns the adapter writes:
an owner reference (operation trace or field trace), a message and a json
payload. The generated id of an error row is never read back by the
adapter and is left out of the model. -/
structure ErrorModel where
  operationTraceId : Option Nat
  fieldTraceId : Option Nat
  message : String
  json : String
  deriving DecidableEq, Repr

/-- The six relations plus the serial id counters the store would keep for
the four relations whose generated ids the adapter reads back. -/
structure DB where
  operations : List OperationModel
  fields : List FieldModel
  operationsFields : List OperationFieldModel
  operationTraces : List OperationTraceModel
  fieldTraces : List FieldTraceModel
  errors : List ErrorModel
  nextOperationId : Nat
  nextFieldId : Nat
  nextOperationTraceId : Nat
  nextFieldTraceId : Nat
  deriving DecidableEq, Repr

/-- Fresh database: empty relations, serial counters starting at one. -/
def emptyDB : DB :=
  { operations := [], fields := [], operationsFields := []
    operationTraces := [], fieldTraces := [], errors := []
    nextOperationId := 1, nextFieldId := 1
    nextOperationTraceId := 1, nextFieldTraceId := 1 }

/-- The adapter object. The clientSet flag models whether the private
client handle has been assigned by init; the client getter of the source
throws when it is still unset. -/
structure PostgreSQLAdapter where
  clientSet : Bool
  deriving DecidableEq, Repr

/-- Adapter on which init has completed. -/
def initAdapter : PostgreSQLAdapter := ⟨true⟩

/-- Store state threaded through the effectful model: the database plus a
count of storage operations issued so far. -/
structure StoreState where
  db : DB
  storageOps : Nat
  deriving DecidableEq, Repr

/-! ## JavaScript collection helpers

The adapter manipulates plain objects and arrays. Objects with string keys
are modelled as association lists that keep first insertion order, the
order Object.keys and Object.values enumerate. -/

/-- Modelled from the spec: flatten from the helpers module, concatenating
a list of lists, as used on Object.values of the trace node map and on the
per node error row lists. -/
def flattenList {α : Type} : List (List α) → List α
  | [] => []
  | x :: xs => x ++ flattenList xs

/-- Indexed map starting at a given index; jsMapIdx below instantiates the
start with zero like the two argument callback of Array.prototype.map. -/
def mapWithIndex {α β : Type} (f : Nat → α → β) : Nat → List α → List β
  | _, [] => []
  | i, x :: xs => f i x :: mapWithIndex f (i + 1) xs

/-- JavaScript map with the element index as second callback argument. -/
def jsMapIdx {α β : Type} (f : Nat → α → β) (l : List α) : List β :=
  mapWithIndex f 0 l

/-- Object assignment m[k] = v: update the value in place when the key is
present, append a new entry otherwise. -/
def objSet {α : Type} : List (String × α) → String → α → List (String × α)
  | [], k, v => [(k, v)]
  | (k', v') :: rest, k, v =>
    if k' = k then (k, v) :: rest else (k', v') :: objSet rest k v

/-- Object access m[k], none when the key is absent. -/
def objGet {α : Type} : List (String × α) → String → Option α
  | [], _ => none
  | (k', v') :: rest, k => if k' = k then some v' else objGet rest k

/-- Object access with a default for an absent key. -/
def objGetD {α : Type} (m : List (String × α)) (k : String) (d : α) : α :=
  (objGet m k).getD d

/-- Object.keys in insertion order. -/
def objKeys {α : Type} (m : List (String × α)) : List String :=
  m.map Prod.fst

/-- Object.values in insertion order. -/
def objValues {α : Type} (m : List (String × α)) : List α :=
  m.map Prod.snd

/-- Append one occurrence to the list stored under a key, creating the key
at the end of the object when it is new. -/
def objAppend {α : Type} : List (String × List α) → String → α → List (String × List α)
  | [], k, v => [(k, [v])]
  | (k', vs) :: rest, k, v =>
    if k' = k then (k, vs ++ [v]) :: rest else (k', vs) :: objAppend rest k v

/-- Split a character list at every occurrence of the separator, the
semantics of String.prototype.split with a one character separator. -/
def splitOnChar (c : Char) : List Char → List (List Char)
  | [] => [[]]
  | x :: xs =>
    match splitOnChar c xs with
    | [] => if x = c then [[], []] else [[x]]
    | r :: rs => if x = c then [] :: r :: rs else (x :: r) :: rs

/-- JavaScript split on a dot, lifted to strings. -/
def jsSplitDot (s : String) : List String :=
  (splitOnChar '.' s.data).map (fun cs => String.mk cs)

/-- Key of the trace node map and of the field id map, parentType dot
field, as built at lines 163 and 247 of the adapter. -/
def mkKey (type field : String) : String :=
  type ++ "." ++ field

/-- Pair derivation of ensureFieldIdMap lines 212 to 214: split the key on
every dot and keep the first two components. -/
def splitKey (k : String) : String × String :=
  ((jsSplitDot k).getD 0 "", (jsSplitDot k).getD 1 "")

/-- Name without a dot; GraphQL type and field names satisfy this. -/
def noDot (s : String) : Prop := '.' ∉ s.data

instance (s : String) : Decidable (noDot s) := by
  unfold noDot
  infer_instance

/-- JavaScript Array.prototype.join with a dot separator, used on the path
of a node at line 166. -/
def joinDot : List String → String
  | [] => ""
  | [x] => x
  | x :: xs => x ++ "." ++ joinDot xs

/-! ## Modelled collaborators: signature and trace normalization -/

/-- Modelled from the spec: operationSignature from normalize/operation
(not among the given sources). Section 4.1 requires only a pure function
of the query document and the operation name; the model concatenates the
two with a separator. -/
def operationSignature (document operationName : String) : String :=
  document ++ "|" ++ operationName

/-- Flat record produced by the trace normalizer for one visited node:
owning type, field name, dotted path from the root, timing window and the
errors attached directly to the node, per section 4.2. -/
structure FieldNode where
  parentType : String
  field : String
  path : List String
  startTime : Nat
  endTime : Nat
  errors : List TraceError
  deriving DecidableEq, Repr

/-- Map built by the trace normalizer: keyed by parentType dot field, each
key holding every occurrence of that field in the tree. -/
def NormalizedTraceNodeMap : Type := List (String × List FieldNode)

/-- Identity key of a normalized node. -/
def keyOf (n : FieldNode) : String :=
  mkKey n.parentType n.field

mutual
/-- Modelled from the spec: the deterministic traversal of section 4.2,
visiting a node before its subtree, recording for each node its dotted
path from the root. -/
def preorderNode (path : List String) : TraceNode → List FieldNode
  | TraceNode.node pt f st en errs ch =>
    { parentType := pt, field := f, path := path ++ [f]
      startTime := st, endTime := en, errors := errs }
      :: preorderChildren (path ++ [f]) ch

/-- Pre-order traversal of a children array, in source order. -/
def preorderChildren (path : List String) : TraceNodeList → List FieldNode
  | TraceNodeList.nil => []
  | TraceNodeList.cons t ts => preorderNode path t ++ preorderChildren path ts
end

/-- Modelled from the spec: normalizeTraceNode from normalize/trace (not
among the given sources). Section 4.2 requires the map keyed by type dot
field, derivable from the same pre-order traversal, keeping every
occurrence of a repeated key; each visited node is appended to the entry
of its key. -/
def normalizeTraceNode (entry : TraceEntry) : NormalizedTraceNodeMap :=
  (preorderChildren [] entry.children).foldl (fun m n => objAppend m (keyOf n) n) []

/-- The flat node sequence of writeTrace line 156: Object.values of the
trace node map, flattened. -/
def flatNodes (entry : TraceEntry) : List FieldNode :=
  flattenList (objValues (normalizeTraceNode entry))

/-! ## Pure storage steps

Each step is the state transformation one knex call performs on the
database, with generated serial ids made explicit. The effectful model
below wraps every step in the client check of the getter at lines 41 to
47; the pure trace writer composes the same steps directly. -/

/-- Lines 97 to 101: select an operation by signature. -/
def selectOperationStep (signature : String) (db : DB) : Option OperationModel × DB :=
  (db.operations.find? (fun op => op.signature == signature), db)

/-- Lines 110 to 118: insert a new operation row, returning its id. -/
def insertOperationStep (trace : Trace) (signature : String) (db : DB) : Nat × DB :=
  (db.nextOperationId,
    { db with
        operations := db.operations ++
          [{ id := db.nextOperationId, operation := trace.query
             name := trace.operationName, signature := signature }]
        nextOperationId := db.nextOperationId + 1 })

/-- Lines 219 to 224: select a field row by type and name. -/
def selectFieldStep (type field : String) (db : DB) : Option FieldModel × DB :=
  (db.fields.find? (fun row => row.type == type && row.name == field), db)

/-- Lines 232 to 237: insert a new field row, returning its id. -/
def insertFieldStep (type field : String) (db : DB) : Nat × DB :=
  (db.nextFieldId,
    { db with
        fields := db.fields ++ [{ id := db.nextFieldId, type := type, name := field }]
        nextFieldId := db.nextFieldId + 1 })

/-- Lines 131 to 138: insert the junction rows linking fields to an
operation. -/
def insertOperationsFieldsStep (rows : List OperationFieldModel) (db : DB) : Unit × DB :=
  ((), { db with operationsFields := db.operationsFields ++ rows })

/-- Lines 143 to 154: insert one operation trace row, returning its id. -/
def insertOperationTraceStep (trace : Trace) (operationId : Nat) (db : DB) : Nat × DB :=
  (db.nextOperationTraceId,
    { db with
        operationTraces := db.operationTraces ++
          [{ id := db.nextOperationTraceId, operationId := operationId
             startTime := trace.startTime, duration := trace.duration
             parsing := trace.parsing, validation := trace.validation
             execution := trace.execution }]
        nextOperationTraceId := db.nextOperationTraceId + 1 })

/-- Lines 160 to 174: batch insert one field trace row per node, returning
the generated ids in insertion order. -/
def insertFieldTracesStep (nodes : List FieldNode) (fieldIdMap : List (String × Nat))
    (operationTraceId : Nat) (db : DB) : List Nat × DB :=
  let rows := jsMapIdx (fun i node =>
    { id := db.nextFieldTraceId + i
      path := joinDot node.path
      fieldId := objGetD fieldIdMap (mkKey node.parentType node.field) 0
      operationTraceId := operationTraceId
      startTime := node.startTime
      endTime := node.endTime : FieldTraceModel }) nodes
  (rows.map (fun row => row.id),
    { db with
        fieldTraces := db.fieldTraces ++ rows
        nextFieldTraceId := db.nextFieldTraceId + nodes.length })

/-- Lines 179 to 187 and 192 to 208: insert error rows. -/
def insertErrorsStep (rows : List ErrorModel) (db : DB) : Unit × DB :=
  ((), { db with errors := db.errors ++ rows })

/-- Read all rows of a relation, lines 67 to 85. -/
def selectAllFieldsStep (db : DB) : List FieldModel × DB := (db.fields, db)

/-- Select every operation row. -/
def selectAllOperationsStep (db : DB) : List OperationModel × DB := (db.operations, db)

/-- Select every operation trace row. -/
def selectAllOperationTracesStep (db : DB) : List OperationTraceModel × DB :=
  (db.operationTraces, db)

/-- Select every field trace row. -/
def selectAllFieldTracesStep (db : DB) : List FieldTraceModel × DB := (db.fieldTraces, db)

/-- Select every error row. -/
def selectAllErrorsStep (db : DB) : List ErrorModel × DB := (db.errors, db)

/-! ## Pure trace writer -/

/-- Sequential lookup or insert for each type and field pair, mirroring the
Promise.all of ensureFieldIdMap lines 216 to 241, run left to right. -/
def ensureFieldIdsPure : List (String × String) → DB → List Nat × DB
  | [], db => ([], db)
  | p :: rest, db =>
    match (selectFieldStep p.1 p.2 db).1 with
    | some row =>
      let r := ensureFieldIdsPure rest db
      (row.id :: r.1, r.2)
    | none =>
      let ins := insertFieldStep p.1 p.2 db
      let r := ensureFieldIdsPure rest ins.2
      (ins.1 :: r.1, r.2)

/-- Lines 243 to 251: rebuild the id map by zipping the pairs with the
resolved ids, joining each pair back into a type dot field key. The
reduce of the source builds the object front to back with spread: a new
key is appended at the end, a duplicate key keeps its position and gets
the later value, which is objSet folded from the left. -/
def buildFieldIdMap (pairs : List (String × String)) (ids : List Nat) :
    List (String × Nat) :=
  (pairs.zip ids).foldl (fun acc pi => objSet acc (mkKey pi.1.1 pi.1.2) pi.2) []

/-- Lines 211 to 252: ensureFieldIdMap. Derives the type and field pairs
from the keys of the trace node map by splitting on dots, resolves each
pair by lookup or insert, and reduces the pairs and ids into a map. -/
def ensureFieldIdMapPure (traceNodeMap : NormalizedTraceNodeMap) (db : DB) :
    List (String × Nat) × DB :=
  let typeFieldPairs := (objKeys traceNodeMap).map splitKey
  let r := ensureFieldIdsPure typeFieldPairs db
  (buildFieldIdMap typeFieldPairs r.1, r.2)

/-- Ghost record collecting the locals of one writeTrace run, so theorems
can refer to the captured ids and resolved maps of a write. -/
structure WriteTraceResult where
  existingOperation : Option OperationModel
  operationId : Nat
  fieldIdMap : List (String × Nat)
  operationTraceId : Nat
  fieldTraceIds : List Nat
  deriving DecidableEq, Repr

/-- Lines 87 to 209: the trace writer under an open client, step by step in
source order. Returns the locals of the run alongside the final database. -/
def writeTracePure (trace : Trace) (db : DB) : WriteTraceResult × DB :=
  let signature := operationSignature trace.query trace.operationName
  let existingOperation := (selectOperationStep signature db).1
  let resolved :=
    match existingOperation with
    | some op => (op.id, db)
    | none => insertOperationStep trace signature db
  let operationId := resolved.1
  let db1 := resolved.2
  let traceNodeMap := normalizeTraceNode trace.entry
  let ensured := ensureFieldIdMapPure traceNodeMap db1
  let fieldIdMap := ensured.1
  let db2 := ensured.2
  let db3 :=
    match existingOperation with
    | some _ => db2
    | none =>
      (insertOperationsFieldsStep
        ((objValues fieldIdMap).map (fun fieldId =>
          { fieldId := fieldId, operationId := operationId })) db2).2
  let inserted := insertOperationTraceStep trace operationId db3
  let operationTraceId := inserted.1
  let db4 := inserted.2
  let nodes := flattenList (objValues traceNodeMap)
  let ftInserted := insertFieldTracesStep nodes fieldIdMap operationTraceId db4
  let fieldTraceIds := ftInserted.1
  let db5 := ftInserted.2
  let db6 :=
    if trace.entry.errors.isEmpty then db5
    else
      (insertErrorsStep
        (trace.entry.errors.map (fun err =>
          { operationTraceId := some operationTraceId, fieldTraceId := none
            message := err.message, json := err.json })) db5).2
  let fieldErrorRows :=
    flattenList (jsMapIdx (fun i node =>
      node.errors.map (fun err =>
        { operationTraceId := none
          fieldTraceId := some (fieldTraceIds.getD i 0)
          message := err.message, json := err.json : ErrorModel }))
      (nodes.filter (fun node => !node.errors.isEmpty)))
  let db7 := (insertErrorsStep fieldErrorRows db6).2
  ({ existingOperation := existingOperation, operationId := operationId
     fieldIdMap := fieldIdMap, operationTraceId := operationTraceId
     fieldTraceIds := fieldTraceIds }, db7)

/-- Sequential interleaving of the Promise.all dispatch of writeReport
line 64: one writeTrace run per trace, in report order. -/
def writeReportPure (report : Report) (db : DB) : DB :=
  report.traces.foldl (fun d t => (writeTracePure t d).2) db

/-! ## Effectful model with the client getter check

Every storage call of the source goes through the client getter of lines
41 to 47, which throws the error Remember to init() while the private
client handle is unset. checkedClient wraps one pure storage step in that
check and counts the issued storage operation. -/

/-- One storage call through the client getter: fails with the getter
error when init has not run, otherwise performs the step and counts it. -/
def checkedClient {α : Type} (a : PostgreSQLAdapter) (step : DB → α × DB)
    (s : StoreState) : Except String α × StoreState :=
  if a.clientSet then
    (Except.ok (step s.db).1, { db := (step s.db).2, storageOps := s.storageOps + 1 })
  else
    (Except.error "Remember to init()", s)

/-- Effectful lookup or insert per pair, lines 216 to 241, with every
select and insert going through the client getter. -/
def ensureFieldIds (a : PostgreSQLAdapter) :
    List (String × String) → StoreState → Except String (List Nat) × StoreState
  | [], s => (Except.ok [], s)
  | p :: rest, s =>
    match checkedClient a (selectFieldStep p.1 p.2) s with
    | (Except.error e, s1) => (Except.error e, s1)
    | (Except.ok (some row), s1) =>
      match ensureFieldIds a rest s1 with
      | (Except.error e, s2) => (Except.error e, s2)
      | (Except.ok ids, s2) => (Except.ok (row.id :: ids), s2)
    | (Except.ok none, s1) =>
      match checkedClient a (insertFieldStep p.1 p.2) s1 with
      | (Except.error e, s2) => (Except.error e, s2)
      | (Except.ok newId, s2) =>
        match ensureFieldIds a rest s2 with
        | (Except.error e, s3) => (Except.error e, s3)
        | (Except.ok ids, s3) => (Except.ok (newId :: ids), s3)

/-- Lines 211 to 252: effectful ensureFieldIdMap. -/
def ensureFieldIdMap (a : PostgreSQLAdapter) (traceNodeMap : NormalizedTraceNodeMap)
    (s : StoreState) : Except String (List (String × Nat)) × StoreState :=
  let typeFieldPairs := (objKeys traceNodeMap).map splitKey
  match ensureFieldIds a typeFieldPairs s with
  | (Except.error e, s1) => (Except.error e, s1)
  | (Except.ok ids, s1) => (Except.ok (buildFieldIdMap typeFieldPairs ids), s1)

/-- Lines 87 to 209: effectful writeTrace, every storage call checked. -/
def writeTrace (a : PostgreSQLAdapter) (trace : Trace) (s : StoreState) :
    Except String WriteTraceResult × StoreState :=
  let signature := operationSignature trace.query trace.operationName
  match checkedClient a (selectOperationStep signature) s with
  | (Except.error e, s1) => (Except.error e, s1)
  | (Except.ok existingOperation, s1) =>
    let resolved :=
      match existingOperation with
      | some op => (Except.ok op.id, s1)
      | none => checkedClient a (insertOperationStep trace signature) s1
    match resolved with
    | (Except.error e, s2) => (Except.error e, s2)
    | (Except.ok operationId, s2) =>
      let traceNodeMap := normalizeTraceNode trace.entry
      match ensureFieldIdMap a traceNodeMap s2 with
      | (Except.error e, s3) => (Except.error e, s3)
      | (Except.ok fieldIdMap, s3) =>
        let linked :=
          match existingOperation with
          | some _ => (Except.ok (), s3)
          | none =>
            checkedClient a
              (insertOperationsFieldsStep
                ((objValues fieldIdMap).map (fun fieldId =>
                  { fieldId := fieldId, operationId := operationId }))) s3
        match linked with
        | (Except.error e, s4) => (Except.error e, s4)
        | (Except.ok _, s4) =>
          match checkedClient a (insertOperationTraceStep trace operationId) s4 with
          | (Except.error e, s5) => (Except.error e, s5)
          | (Except.ok operationTraceId, s5) =>
            let nodes := flattenList (objValues traceNodeMap)
            match checkedClient a (insertFieldTracesStep nodes fieldIdMap operationTraceId) s5 with
            | (Except.error e, s6) => (Except.error e, s6)
            | (Except.ok fieldTraceIds, s6) =>
              let opErrors :=
                if trace.entry.errors.isEmpty then (Except.ok (), s6)
                else
                  checkedClient a
                    (insertErrorsStep
                      (trace.entry.errors.map (fun err =>
                        { operationTraceId := some operationTraceId, fieldTraceId := none
                          message := err.message, json := err.json }))) s6
              match opErrors with
              | (Except.error e, s7) => (Except.error e, s7)
              | (Except.ok _, s7) =>
                let fieldErrorRows :=
                  flattenList (jsMapIdx (fun i node =>
                    node.errors.map (fun err =>
                      { operationTraceId := none
                        fieldTraceId := some (fieldTraceIds.getD i 0)
                        message := err.message, json := err.json : ErrorModel }))
                    (nodes.filter (fun node => !node.errors.isEmpty)))
                match checkedClient a (insertErrorsStep fieldErrorRows) s7 with
                | (Except.error e, s8) => (Except.error e, s8)
                | (Except.ok _, s8) =>
                  (Except.ok
                    { existingOperation := existingOperation, operationId := operationId
                      fieldIdMap := fieldIdMap, operationTraceId := operationTraceId
                      fieldTraceIds := fieldTraceIds }, s8)

/-- Sequential interleaving of the per trace dispatch of writeReport. -/
def writeTraces (a : PostgreSQLAdapter) :
    List Trace → StoreState → Except String Unit × StoreState
  | [], s => (Except.ok (), s)
  | t :: ts, s =>
    match writeTrace a t s with
    | (Except.error e, s1) => (Except.error e, s1)
    | (Except.ok _, s1) => writeTraces a ts s1

/-- Lines 49 to 65: writeReport maps writeTrace over the traces of the
report; the method itself touches no storage before dispatching. -/
def writeReport (a : PostgreSQLAdapter) (report : Report) (s : StoreState) :
    Except String Unit × StoreState :=
  writeTraces a report.traces s

/-- Lines 67 to 69: readFields. -/
def readFields (a : PostgreSQLAdapter) (s : StoreState) :
    Except String (List FieldModel) × StoreState :=
  checkedClient a selectAllFieldsStep s

/-- Lines 71 to 73: readOperations. -/
def readOperations (a : PostgreSQLAdapter) (s : StoreState) :
    Except String (List OperationModel) × StoreState :=
  checkedClient a selectAllOperationsStep s

/-- Lines 75 to 77: readOperationTraces. -/
def readOperationTraces (a : PostgreSQLAdapter) (s : StoreState) :
    Except String (List OperationTraceModel) × StoreState :=
  checkedClient a selectAllOperationTracesStep s

/-- Lines 79 to 81: readFieldTraces. -/
def readFieldTraces (a : PostgreSQLAdapter) (s : StoreState) :
    Except String (List FieldTraceModel) × StoreState :=
  checkedClient a selectAllFieldTracesStep s

/-- Lines 83 to 85: readErrors. -/
def readErrors (a : PostgreSQLAdapter) (s : StoreState) :
    Except String (List ErrorModel) × StoreState :=
  checkedClient a selectAllErrorsStep s

/-! ## Settlement semantics of the Promise.all dispatch

For the report level failure policy the relevant behaviour of line 64 is
when the promise returned by writeReport settles. Each trace write is an
independent task with a settlement time and an outcome; Promise.all
fulfills at the latest fulfillment when every task fulfills, and rejects
at the earliest rejection as soon as one task rejects. -/

/-- Outcome of one trace write task: when it settles and whether it
failed. -/
structure TraceWriteOutcome where
  settleTime : Nat
  failed : Bool
  deriving DecidableEq, Repr

/-- Time of the earliest rejection among the tasks, none when every task
fulfills. -/
def firstRejectionTime (l : List TraceWriteOutcome) : Option Nat :=
  ((l.filter (fun o => o.failed)).map (fun o => o.settleTime)).min?

/-- Time at which the last task settles. -/
def allSettledTime (l : List TraceWriteOutcome) : Nat :=
  (l.map (fun o => o.settleTime)).foldl max 0

/-- Settlement of Promise.all over the trace write tasks: rejects at the
earliest rejection when one exists, fulfills at the latest fulfillment
otherwise. -/
def promiseAllOutcome (l : List TraceWriteOutcome) : TraceWriteOutcome :=
  match firstRejectionTime l with
  | some t => { settleTime := t, failed := true }
  | none => { settleTime := allSettledTime l, failed := false }

/-- Settlement of the promise writeReport returns at line 64, as a function
of the per trace task outcomes. -/
def writeReportOutcome (traceOutcomes : List TraceWriteOutcome) : TraceWriteOutcome :=
  promiseAllOutcome traceOutcomes

/-! ## Ordering vocabulary for the flat node sequence

stableGroup describes the order in which flatten on Object.values of the
trace node map enumerates the visited nodes: grouped by identity key, keys
in first encounter order, occurrences of one key in traversal order. -/

/-- Keys of a node list in order of first occurrence. -/
def firstKeys (l : List FieldNode) : List String :=
  l.foldl (fun acc n => if keyOf n ∈ acc then acc else acc ++ [keyOf n]) []

/-- Stable grouping of a node list by identity key: keys in first
encounter order, each key followed by all of its occurrences in list
order. -/
def stableGroup (l : List FieldNode) : List FieldNode :=
  (firstKeys l).flatMap (fun k => l.filter (fun n => keyOf n == k))

/-- Normal form of the map a fold of objAppend builds: one entry per key
in first encounter order, holding the occurrences of that key in list
order. -/
def groupForm (l : List FieldNode) : NormalizedTraceNodeMap :=
  (firstKeys l).map (fun k => (k, l.filter (fun n => keyOf n == k)))

/-- Default node used when indexing the flat node sequence. -/
def defaultFieldNode : FieldNode :=
  { parentType := "", field := "", path := [], startTime := 0, endTime := 0, errors := [] }

/-! ## Concrete test fixtures

Concrete traces used to evaluate the model at specific inputs. -/

/-- Leaf trace node without children. -/
def leafNode (pt f : String) (st en : Nat) (errs : List TraceError) : TraceNode :=
  TraceNode.node pt f st en errs TraceNodeList.nil

/-- Trace whose flat node sequence is a node for field a without errors
followed by a node for field b carrying one error. -/
def twoNodeTrace : Trace :=
  { query := "query Q \x7b a b \x7d", operationName := "Q"
    startTime := 1, duration := 2, parsing := 3, validation := 4, execution := 5
    entry :=
      { errors := []
        children :=
          TraceNodeList.cons (leafNode "Query" "a" 10 20 [])
            (TraceNodeList.cons (leafNode "Query" "b" 30 40 [{ message := "boom", json := "null" }])
              TraceNodeList.nil) } }

/-- Trace carrying one root entry error besides the field error of
twoNodeTrace, for exercising both error insertion paths. -/
def rootErrorTrace : Trace :=
  { query := "query R \x7b a b \x7d", operationName := "R"
    startTime := 1, duration := 2, parsing := 3, validation := 4, execution := 5
    entry :=
      { errors := [{ message := "bad", json := "\x7b\x7d" }]
        children :=
          TraceNodeList.cons (leafNode "Query" "a" 10 20 [])
            (TraceNodeList.cons (leafNode "Query" "b" 30 40 [{ message := "boom", json := "null" }])
              TraceNodeList.nil) } }

/-- Entry whose identity key T.f occurs at positions zero and two of the
pre-order traversal, with T.g in between; start times distinguish the
three nodes. -/
def repeatedKeyEntry : TraceEntry :=
  { errors := []
    children :=
      TraceNodeList.cons (leafNode "T" "f" 1 1 [])
        (TraceNodeList.cons (leafNode "T" "g" 2 2 [])
          (TraceNodeList.cons (leafNode "T" "f" 3 3 [])
            TraceNodeList.nil)) }

/-! ## Basic lemmas about the collection helpers -/

theorem length_mapWithIndex {α β : Type} (f : Nat → α → β) :
    ∀ (s : Nat) (l : List α), (mapWithIndex f s l).length = l.length
  | _, [] => rfl
  | s, _ :: xs => by simp [mapWithIndex, length_mapWithIndex f (s + 1) xs]

theorem length_jsMapIdx {α β : Type} (f : Nat → α → β) (l : List α) :
    (jsMapIdx f l).length = l.length :=
  length_mapWithIndex f 0 l

theorem getD_mapWithIndex {α β : Type} (f : Nat → α → β) (d : β) (d₀ : α) :
    ∀ (s i : Nat) (l : List α), i < l.length →
      (mapWithIndex f s l).getD i d = f (s + i) (l.getD i d₀)
  | _, _, [], h => by simp at h
  | s, 0, x :: xs, _ => by simp [mapWithIndex]
  | s, i + 1, x :: xs, h => by
    have ih := getD_mapWithIndex f d d₀ (s + 1) i xs (Nat.lt_of_succ_lt_succ h)
    have harith : s + 1 + i = s + (i + 1) := by omega
    simp only [mapWithIndex, List.getD_cons_succ, ih, harith]

theorem map_mapWithIndex {α β γ : Type} (f : Nat → α → β) (g : β → γ) :
    ∀ (s : Nat) (l : List α),
      (mapWithIndex f s l).map g = mapWithIndex (fun i a => g (f i a)) s l
  | _, [] => rfl
  | s, x :: xs => by simp [mapWithIndex, map_mapWithIndex f g (s + 1) xs]

theorem getD_jsMapIdx {α β : Type} (f : Nat → α → β) (d : β) (d₀ : α)
    (i : Nat) (l : List α) (h : i < l.length) :
    (jsMapIdx f l).getD i d = f i (l.getD i d₀) := by
  have := getD_mapWithIndex f d d₀ 0 i l h
  simpa [jsMapIdx] using this

theorem flattenList_map_eq_flatMap {α β : Type} (g : α → List β) :
    ∀ l : List α, flattenList (l.map g) = l.flatMap g
  | [] => rfl
  | x :: xs => by simp [flattenList, flattenList_map_eq_flatMap g xs]

theorem all_flattenList {α : Type} (p : α → Bool) :
    ∀ ll : List (List α), (flattenList ll).all p = ll.all (fun l => l.all p)
  | [] => rfl
  | x :: xs => by simp [flattenList, List.all_append, all_flattenList p xs]

theorem getD_append_right {α : Type} (d : α) :
    ∀ (l m : List α) (i : Nat), (l ++ m).getD (l.length + i) d = m.getD i d
  | [], _, _ => by simp
  | x :: xs, m, i => by
    have := getD_append_right d xs m i
    simpa [List.getD_cons_succ, Nat.succ_add] using this

theorem all_map_general {α β : Type} (f : α → β) (p : β → Bool) :
    ∀ l : List α, (l.map f).all p = l.all (fun x => p (f x))
  | [] => rfl
  | x :: xs => by simp [all_map_general f p xs]

/-! ## Frame lemmas for field id resolution

Field id resolution touches only the Fields relation and its id counter;
every other relation and counter passes through unchanged, and one id is
returned per requested pair. -/

theorem ensureFieldIdsPure_frame :
    ∀ (ps : List (String × String)) (db : DB),
      (ensureFieldIdsPure ps db).2.operations = db.operations ∧
      (ensureFieldIdsPure ps db).2.operationsFields = db.operationsFields ∧
      (ensureFieldIdsPure ps db).2.operationTraces = db.operationTraces ∧
      (ensureFieldIdsPure ps db).2.fieldTraces = db.fieldTraces ∧
      (ensureFieldIdsPure ps db).2.errors = db.errors ∧
      (ensureFieldIdsPure ps db).2.nextOperationId = db.nextOperationId ∧
      (ensureFieldIdsPure ps db).2.nextOperationTraceId = db.nextOperationTraceId ∧
      (ensureFieldIdsPure ps db).2.nextFieldTraceId = db.nextFieldTraceId ∧
      (ensureFieldIdsPure ps db).1.length = ps.length
  | [], db => by simp [ensureFieldIdsPure]
  | p :: rest, db => by
    simp only [ensureFieldIdsPure, selectFieldStep]
    cases h : db.fields.find? (fun row => row.type == p.1 && row.name == p.2) with
    | some row =>
      have ih := ensureFieldIdsPure_frame rest db
      simpa using ih
    | none =>
      have ih := ensureFieldIdsPure_frame rest (insertFieldStep p.1 p.2 db).2
      simpa [insertFieldStep] using ih

theorem ensureFieldIdMapPure_frame (m : NormalizedTraceNodeMap) (db : DB) :
    (ensureFieldIdMapPure m db).2.operations = db.operations ∧
    (ensureFieldIdMapPure m db).2.operationsFields = db.operationsFields ∧
    (ensureFieldIdMapPure m db).2.operationTraces = db.operationTraces ∧
    (ensureFieldIdMapPure m db).2.fieldTraces = db.fieldTraces ∧
    (ensureFieldIdMapPure m db).2.errors = db.errors ∧
    (ensureFieldIdMapPure m db).2.nextOperationId = db.nextOperationId ∧
    (ensureFieldIdMapPure m db).2.nextOperationTraceId = db.nextOperationTraceId ∧
    (ensureFieldIdMapPure m db).2.nextFieldTraceId = db.nextFieldTraceId := by
  have h := ensureFieldIdsPure_frame ((objKeys m).map splitKey) db
  simpa [ensureFieldIdMapPure] using
    ⟨h.1, h.2.1, h.2.2.1, h.2.2.2.1, h.2.2.2.2.1, h.2.2.2.2.2.1,
     h.2.2.2.2.2.2.1, h.2.2.2.2.2.2.2.1⟩

/-! ## Characterization of one pure trace write

writeTracePure_spec pins down, for an arbitrary starting database, every
relation after one trace write together with the captured ids, branching
only on whether the signature was already known. -/

theorem writeTracePure_spec (trace : Trace) (db : DB) :
    (writeTracePure trace db).1.existingOperation
        = db.operations.find? (fun op =>
            op.signature == operationSignature trace.query trace.operationName) ∧
    (writeTracePure trace db).1.operationTraceId = db.nextOperationTraceId ∧
    (writeTracePure trace db).2.operationTraces
        = db.operationTraces ++
          [{ id := (writeTracePure trace db).1.operationTraceId
             operationId := (writeTracePure trace db).1.operationId
             startTime := trace.startTime, duration := trace.duration
             parsing := trace.parsing, validation := trace.validation
             execution := trace.execution }] ∧
    (writeTracePure trace db).2.fieldTraces
        = db.fieldTraces ++
          jsMapIdx (fun i node =>
            { id := db.nextFieldTraceId + i
              path := joinDot node.path
              fieldId := objGetD (writeTracePure trace db).1.fieldIdMap
                (mkKey node.parentType node.field) 0
              operationTraceId := (writeTracePure trace db).1.operationTraceId
              startTime := node.startTime, endTime := node.endTime })
            (flatNodes trace.entry) ∧
    (writeTracePure trace db).1.fieldTraceIds
        = jsMapIdx (fun i _ => db.nextFieldTraceId + i) (flatNodes trace.entry) ∧
    (writeTracePure trace db).2.errors
        = db.errors
          ++ trace.entry.errors.map (fun err =>
              { operationTraceId := some (writeTracePure trace db).1.operationTraceId
                fieldTraceId := none, message := err.message, json := err.json })
          ++ flattenList (jsMapIdx (fun i node =>
              node.errors.map (fun err =>
                { operationTraceId := none
                  fieldTraceId := some ((writeTracePure trace db).1.fieldTraceIds.getD i 0)
                  message := err.message, json := err.json : ErrorModel }))
              ((flatNodes trace.entry).filter (fun node => !node.errors.isEmpty))) ∧
    (writeTracePure trace db).2.operations
        = db.operations ++
          (match db.operations.find? (fun op =>
              op.signature == operationSignature trace.query trace.operationName) with
           | some _ => []
           | none => [{ id := db.nextOperationId, operation := trace.query
                        name := trace.operationName
                        signature := operationSignature trace.query trace.operationName }]) ∧
    (writeTracePure trace db).1.operationId
        = (match db.operations.find? (fun op =>
              op.signature == operationSignature trace.query trace.operationName) with
           | some op => op.id
           | none => db.nextOperationId) ∧
    ((db.operations.find? (fun op =>
        op.signature == operationSignature trace.query trace.operationName)).isSome →
      (writeTracePure trace db).2.operationsFields = db.operationsFields) ∧
    (db.operations.find? (fun op =>
        op.signature == operationSignature trace.query trace.operationName) = none →
      (writeTracePure trace db).2.operationsFields
        = db.operationsFields ++
            (objValues (writeTracePure trace db).1.fieldIdMap).map
              (fun fieldId =>
                { fieldId := fieldId
                  operationId := (writeTracePure trace db).1.operationId })) := by
  unfold writeTracePure flatNodes
  simp only [selectOperationStep]
  cases h : db.operations.find? (fun op =>
      op.signature == operationSignature trace.query trace.operationName) with
  | some op =>
    obtain ⟨f1, f2, f3, f4, f5, f6, f7, f8⟩ :=
      ensureFieldIdMapPure_frame (normalizeTraceNode trace.entry) db
    by_cases he : trace.entry.errors.isEmpty
    · simp [insertOperationTraceStep, insertFieldTracesStep, insertErrorsStep,
        f1, f2, f3, f4, f5, f6, f7, f8, he, map_mapWithIndex, jsMapIdx,
        List.isEmpty_iff.mp he]
    · simp [insertOperationTraceStep, insertFieldTracesStep, insertErrorsStep,
        f1, f2, f3, f4, f5, f6, f7, f8, he, map_mapWithIndex, jsMapIdx]
  | none =>
    obtain ⟨f1, f2, f3, f4, f5, f6, f7, f8⟩ :=
      ensureFieldIdMapPure_frame (normalizeTraceNode trace.entry)
        (insertOperationStep trace
          (operationSignature trace.query trace.operationName) db).2
    simp only [insertOperationStep] at f1 f2 f3 f4 f5 f6 f7 f8
    by_cases he : trace.entry.errors.isEmpty
    · simp [insertOperationStep, insertOperationsFieldsStep, insertOperationTraceStep,
        insertFieldTracesStep, insertErrorsStep,
        f1, f2, f3, f4, f5, f6, f7, f8, he, map_mapWithIndex, jsMapIdx,
        List.isEmpty_iff.mp he]
    · simp [insertOperationStep, insertOperationsFieldsStep, insertOperationTraceStep,
        insertFieldTracesStep, insertErrorsStep,
        f1, f2, f3, f4, f5, f6, f7, f8, he, map_mapWithIndex, jsMapIdx]

/-! ## Group structure of the normalized trace node map

The map built by appending every visited node under its identity key has
one entry per key in first encounter order, each entry holding all of the
occurrences of its key in traversal order. -/

theorem mem_firstKeysAux :
    ∀ (l : List FieldNode) (acc : List String) (k : String),
      k ∈ l.foldl (fun acc n => if keyOf n ∈ acc then acc else acc ++ [keyOf n]) acc ↔
        (k ∈ acc ∨ k ∈ l.map keyOf)
  | [], acc, k => by simp
  | n :: ns, acc, k => by
    simp only [List.foldl_cons, List.map_cons, List.mem_cons]
    by_cases h : keyOf n ∈ acc
    · rw [if_pos h, mem_firstKeysAux ns acc k]
      constructor
      · rintro (hk | hk)
        · exact Or.inl hk
        · exact Or.inr (Or.inr hk)
      · rintro (hk | hk | hk)
        · exact Or.inl hk
        · exact Or.inl (hk ▸ h)
        · exact Or.inr hk
    · rw [if_neg h, mem_firstKeysAux ns (acc ++ [keyOf n]) k]
      simp only [List.mem_append, List.mem_singleton]
      tauto

theorem mem_firstKeys (l : List FieldNode) (k : String) :
    k ∈ firstKeys l ↔ k ∈ l.map keyOf := by
  have := mem_firstKeysAux l [] k
  simpa [firstKeys] using this

theorem nodup_firstKeysAux :
    ∀ (l : List FieldNode) (acc : List String), acc.Nodup →
      (l.foldl (fun acc n => if keyOf n ∈ acc then acc else acc ++ [keyOf n]) acc).Nodup
  | [], _, h => h
  | n :: ns, acc, h => by
    simp only [List.foldl_cons]
    by_cases hk : keyOf n ∈ acc
    · rw [if_pos hk]
      exact nodup_firstKeysAux ns acc h
    · rw [if_neg hk]
      refine nodup_firstKeysAux ns _ ?_
      simp [List.nodup_append, h, hk]

theorem nodup_firstKeys (l : List FieldNode) : (firstKeys l).Nodup :=
  nodup_firstKeysAux l [] List.nodup_nil

theorem firstKeys_append_single (l : List FieldNode) (n : FieldNode) :
    firstKeys (l ++ [n]) =
      if keyOf n ∈ firstKeys l then firstKeys l else firstKeys l ++ [keyOf n] := by
  simp [firstKeys, List.foldl_append]

theorem filter_keyOf_eq_nil {l : List FieldNode} {k : String}
    (h : k ∉ l.map keyOf) : l.filter (fun n => keyOf n == k) = [] := by
  rw [List.filter_eq_nil_iff]
  intro n hn
  simp only [beq_iff_eq]
  intro hkey
  exact h (hkey ▸ List.mem_map_of_mem keyOf hn)

theorem objAppend_map_mem (g : String → List FieldNode) (k : String) (v : FieldNode) :
    ∀ (ks : List String), ks.Nodup → k ∈ ks →
      objAppend (ks.map (fun k' => (k', g k'))) k v =
        ks.map (fun k' => (k', if k' = k then g k' ++ [v] else g k'))
  | [], _, hk => absurd hk (List.not_mem_nil k)
  | k₀ :: ks, hnd, hk => by
    simp only [List.map_cons, objAppend]
    by_cases h0 : k₀ = k
    · rw [if_pos h0, if_pos h0]
      subst h0
      have hnotin : k₀ ∉ ks := (List.nodup_cons.mp hnd).1
      have : ks.map (fun k' => (k', if k' = k₀ then g k' ++ [v] else g k')) =
          ks.map (fun k' => (k', g k')) := by
        apply List.map_congr_left
        intro x hx
        have : x ≠ k₀ := fun hxk => hnotin (hxk ▸ hx)
        simp [this]
      rw [this]
    · rw [if_neg h0, if_neg h0]
      have hk' : k ∈ ks := by
        rcases List.mem_cons.mp hk with h | h
        · exact absurd h.symm h0
        · exact h
      rw [objAppend_map_mem g k v ks (List.nodup_cons.mp hnd).2 hk']

theorem objAppend_map_not_mem (g : String → List FieldNode) (k : String) (v : FieldNode) :
    ∀ (ks : List String), k ∉ ks →
      objAppend (ks.map (fun k' => (k', g k'))) k v =
        ks.map (fun k' => (k', g k')) ++ [(k, [v])]
  | [], _ => rfl
  | k₀ :: ks, hk => by
    have h0 : k₀ ≠ k := fun h => hk (h ▸ List.mem_cons_self k₀ ks)
    simp only [List.map_cons, objAppend, if_neg h0, List.cons_append]
    rw [objAppend_map_not_mem g k v ks (fun h => hk (List.mem_cons_of_mem k₀ h))]

theorem objAppend_groupForm (l : List FieldNode) (n : FieldNode) :
    objAppend (groupForm l) (keyOf n) n = groupForm (l ++ [n]) := by
  unfold groupForm
  by_cases hk : keyOf n ∈ firstKeys l
  · rw [objAppend_map_mem _ _ _ _ (nodup_firstKeys l) hk,
      firstKeys_append_single, if_pos hk]
    apply List.map_congr_left
    intro k _
    by_cases hkn : k = keyOf n
    · subst hkn
      simp [List.filter_append, List.filter]
    · have hne : (keyOf n == k) = false := by
        simp only [beq_eq_false_iff_ne]
        exact fun h => hkn h.symm
      simp [List.filter_append, List.filter, hkn, hne]
  · rw [objAppend_map_not_mem _ _ _ _ hk, firstKeys_append_single, if_neg hk,
      List.map_append]
    congr 1
    · apply List.map_congr_left
      intro k hkmem
      have hkn : k ≠ keyOf n := fun h => hk (h ▸ hkmem)
      have hne : (keyOf n == k) = false := by
        simp only [beq_eq_false_iff_ne]
        exact fun h => hkn h.symm
      simp [List.filter_append, List.filter, hne]
    · have hnotin : keyOf n ∉ l.map keyOf := fun h => hk ((mem_firstKeys l _).mpr h)
      simp [List.filter_append, List.filter, filter_keyOf_eq_nil hnotin]

theorem foldl_objAppend_groupForm (l : List FieldNode) :
    l.foldl (fun m n => objAppend m (keyOf n) n) [] = groupForm l := by
  induction l using List.reverseRecOn with
  | nil => rfl
  | append_singleton l n ih =>
    rw [List.foldl_append, List.foldl_cons, List.foldl_nil, ih, objAppend_groupForm]

theorem normalizeTraceNode_eq_groupForm (e : TraceEntry) :
    normalizeTraceNode e = groupForm (preorderChildren [] e.children) :=
  foldl_objAppend_groupForm _

/-! ## Splitting keys back into pairs

ensureFieldIdMap derives the type and field pair of a key by splitting on
every dot and keeping the first two components. This inverts the key
construction exactly when neither name contains a dot. -/

theorem splitOnChar_ne_nil (c : Char) : ∀ (l : List Char), splitOnChar c l ≠ []
  | [] => by simp [splitOnChar]
  | x :: xs => by
    cases h : splitOnChar c xs with
    | nil =>
      simp only [splitOnChar, h]
      split <;> simp
    | cons r rs =>
      simp only [splitOnChar, h]
      split <;> simp

theorem splitOnChar_not_mem (c : Char) :
    ∀ (l : List Char), c ∉ l → splitOnChar c l = [l]
  | [], _ => rfl
  | x :: xs, h => by
    have hx : ¬(x = c) := fun he => h (he ▸ List.mem_cons_self x xs)
    have ih := splitOnChar_not_mem c xs (fun hm => h (List.mem_cons_of_mem x hm))
    simp [splitOnChar, ih, hx]

theorem splitOnChar_append (c : Char) :
    ∀ (l m : List Char), c ∉ l → splitOnChar c (l ++ c :: m) = l :: splitOnChar c m
  | [], m, _ => by
    cases h : splitOnChar c m with
    | nil => exact absurd h (splitOnChar_ne_nil c m)
    | cons r rs => simp [splitOnChar, h]
  | x :: xs, m, h => by
    have hx : ¬(x = c) := fun he => h (he ▸ List.mem_cons_self x xs)
    have ih := splitOnChar_append c xs m (fun hm => h (List.mem_cons_of_mem x hm))
    cases hsp : splitOnChar c (xs ++ c :: m) with
    | nil => exact absurd hsp (splitOnChar_ne_nil c _)
    | cons r rs =>
      have : r = xs ∧ rs = splitOnChar c m := by
        rw [ih] at hsp
        exact ⟨(List.cons.injEq _ _ _ _ ▸ hsp).1.symm, (List.cons.injEq _ _ _ _ ▸ hsp).2.symm⟩
      simp [splitOnChar, hsp, hx, this.1, this.2]

theorem jsSplitDot_mkKey (t f : String) (ht : noDot t) (hf : noDot f) :
    jsSplitDot (mkKey t f) = [t, f] := by
  unfold jsSplitDot mkKey
  have hdot : ("." : String).data = ['.'] := rfl
  have hdata : (t ++ "." ++ f).data = t.data ++ '.' :: f.data := by
    rw [String.data_append, String.data_append, hdot]
    simp
  rw [hdata, splitOnChar_append _ _ _ ht, splitOnChar_not_mem _ _ hf]
  simp only [List.map_cons, List.map_nil]

theorem splitKey_mkKey (t f : String) (ht : noDot t) (hf : noDot f) :
    splitKey (mkKey t f) = (t, f) := by
  unfold splitKey
  rw [jsSplitDot_mkKey t f ht hf]
  rfl

/-! ## Settlement lemmas for the report dispatch -/

theorem foldl_max_bounds :
    ∀ (l : List Nat) (a : Nat), a ≤ l.foldl max a ∧ ∀ x ∈ l, x ≤ l.foldl max a
  | [], a => ⟨Nat.le_refl a, by simp⟩
  | y :: ys, a => by
    have ih := foldl_max_bounds ys (max a y)
    refine ⟨Nat.le_trans (Nat.le_max_left a y) ih.1, ?_⟩
    intro x hx
    rcases List.mem_cons.mp hx with h | h
    · exact Nat.le_trans (h ▸ Nat.le_max_right a y) ih.1
    · exact ih.2 x h

theorem firstRejectionTime_eq_none_of_no_failure {l : List TraceWriteOutcome}
    (h : ∀ o ∈ l, o.failed = false) : firstRejectionTime l = none := by
  unfold firstRejectionTime
  have hfil : l.filter (fun o => o.failed) = [] := by
    rw [List.filter_eq_nil_iff]
    intro o ho
    simp [h o ho]
  rw [hfil]
  rfl

theorem firstRejectionTime_isSome_of_failure {l : List TraceWriteOutcome}
    (h : ∃ o ∈ l, o.failed = true) : firstRejectionTime l ≠ none := by
  unfold firstRejectionTime
  rw [Ne, List.min?_eq_none_iff, List.map_eq_nil_iff, List.filter_eq_nil_iff]
  intro hall
  rcases h with ⟨o, ho, hf⟩
  exact hall o ho (by simp [hf])

theorem all_mapWithIndex {α β : Type} (f : Nat → α → β) (p : β → Bool)
    (h : ∀ i a, p (f i a) = true) :
    ∀ (s : Nat) (l : List α), (mapWithIndex f s l).all p = true
  | _, [] => rfl
  | s, x :: xs => by
    simp [mapWithIndex, h s x, all_mapWithIndex f p h (s + 1) xs]

/-! ## Claims -/

/-- C1: writeTrace at a trace whose flat node sequence is a node for field
a without errors followed by a node for field b carrying one error. Two
FieldTrace rows are inserted, ids one and two for paths a and b, and the
returned id sequence is one then two; the claim requires the error of
node one (field b) to be owned by FieldTrace id two, but the inserted
Error row carries FieldTrace id one, the row of the errorless node a,
because the zip of lines 192 to 208 indexes the filtered node list. -/
theorem C1_field_error_misattached_at_failing_input :
    (flatNodes twoNodeTrace.entry).map (fun n => (n.path, n.errors.length))
        = [(["a"], 0), (["b"], 1)] ∧
    (writeTracePure twoNodeTrace emptyDB).2.fieldTraces.map (fun r => (r.id, r.path))
        = [(1, "a"), (2, "b")] ∧
    (writeTracePure twoNodeTrace emptyDB).1.fieldTraceIds = [1, 2] ∧
    (writeTracePure twoNodeTrace emptyDB).2.errors
        = [{ operationTraceId := none, fieldTraceId := some 1
             message := "boom", json := "null" }] := by
  decide

/-- C7 counterexample: an entry whose identity key T.f occurs at pre-order
positions zero and two. The flat sequence taken from the normalized trace
node map groups both T.f occurrences together and is not the pre-order
traversal of the tree. -/
theorem C7_counterexample_grouped_not_preorder :
    flatNodes repeatedKeyEntry ≠ preorderChildren [] repeatedKeyEntry.children ∧
    (flatNodes repeatedKeyEntry).map (fun n => n.startTime) = [1, 3, 2] ∧
    (preorderChildren [] repeatedKeyEntry.children).map (fun n => n.startTime)
        = [1, 2, 3] := by
  decide

/-- C7 amended: the flat node sequence that writeTrace zips against the
batch of inserted FieldTrace ids is the pre-order traversal of the trace
tree grouped stably by the type dot field identity key: keys appear in
first encounter order and the occurrences of one key keep their pre-order
order. It equals plain pre-order exactly when the occurrences of every
key are contiguous in pre-order, in particular when all keys are
distinct. -/
theorem C7_flat_sequence_is_stable_grouping_of_preorder (e : TraceEntry) :
    flatNodes e = stableGroup (preorderChildren [] e.children) := by
  rw [flatNodes, normalizeTraceNode_eq_groupForm, groupForm, stableGroup, objValues,
    List.map_map, flattenList_map_eq_flatMap]
  rfl

/-- C9: on an adapter whose init has not run, each public operation that
touches storage fails with the client getter error before issuing any
storage read or write: the state, including the storage operation
counter, is returned unchanged. -/
theorem C9_missing_client_rejects (a : PostgreSQLAdapter) (s : StoreState)
    (t : Trace) (ts : List Trace) (h : a.clientSet = false) :
    writeReport a { traces := t :: ts } s = (Except.error "Remember to init()", s) ∧
    readFields a s = (Except.error "Remember to init()", s) ∧
    readOperations a s = (Except.error "Remember to init()", s) ∧
    readOperationTraces a s = (Except.error "Remember to init()", s) ∧
    readFieldTraces a s = (Except.error "Remember to init()", s) ∧
    readErrors a s = (Except.error "Remember to init()", s) := by
  refine ⟨?_, ?_, ?_, ?_, ?_, ?_⟩ <;>
    simp [writeReport, writeTraces, writeTrace, readFields, readOperations,
      readOperationTraces, readFieldTraces, readErrors, checkedClient, h]

/-- Witness for C9 at a concrete adapter without a client, store and trace. -/
theorem C9_missing_client_rejects_witness :
    writeReport ⟨false⟩ { traces := [twoNodeTrace] } ⟨emptyDB, 0⟩
        = (Except.error "Remember to init()", ⟨emptyDB, 0⟩) ∧
    readFields ⟨false⟩ ⟨emptyDB, 0⟩ = (Except.error "Remember to init()", ⟨emptyDB, 0⟩) ∧
    readOperations ⟨false⟩ ⟨emptyDB, 0⟩ = (Except.error "Remember to init()", ⟨emptyDB, 0⟩) ∧
    readOperationTraces ⟨false⟩ ⟨emptyDB, 0⟩
        = (Except.error "Remember to init()", ⟨emptyDB, 0⟩) ∧
    readFieldTraces ⟨false⟩ ⟨emptyDB, 0⟩ = (Except.error "Remember to init()", ⟨emptyDB, 0⟩) ∧
    readErrors ⟨false⟩ ⟨emptyDB, 0⟩ = (Except.error "Remember to init()", ⟨emptyDB, 0⟩) :=
  C9_missing_client_rejects ⟨false⟩ ⟨emptyDB, 0⟩ twoNodeTrace [] rfl

/-- C10: a report with an empty trace list completes successfully and
issues no storage operation; the store state is returned unchanged. -/
theorem C10_empty_report_writes_nothing (a : PostgreSQLAdapter) (s : StoreState) :
    writeReport a { traces := [] } s = (Except.ok (), s) :=
  rfl

/-- C2 counterexample: two trace write tasks, the first completing at time
two and the second failing at time one. The promise of writeReport
settles at time one, before the first trace write has completed, so it
does not complete only once every trace write has completed or failed. -/
theorem C2_counterexample_early_rejection :
    writeReportOutcome [⟨2, false⟩, ⟨1, true⟩] = ⟨1, true⟩ ∧
    ¬ (∀ o ∈ [(⟨2, false⟩ : TraceWriteOutcome), ⟨1, true⟩],
        o.settleTime ≤ (writeReportOutcome [⟨2, false⟩, ⟨1, true⟩]).settleTime) := by
  decide

/-- C2 amended: writeReport dispatches one writeTrace task per trace and
the tasks are independent; when every task fulfills, the returned promise
fulfills at the latest task settlement, hence after every trace write has
completed; when some task fails, the promise rejects at the earliest
rejection, which may precede the settlement of a sibling task, while the
sibling tasks themselves keep running with unchanged outcomes. -/
theorem C2_report_settlement (l : List TraceWriteOutcome) :
    ((∀ o ∈ l, o.failed = false) →
      writeReportOutcome l = ⟨allSettledTime l, false⟩ ∧
      ∀ o ∈ l, o.settleTime ≤ (writeReportOutcome l).settleTime) ∧
    ((∃ o ∈ l, o.failed = true) →
      (writeReportOutcome l).failed = true ∧
      firstRejectionTime l = some (writeReportOutcome l).settleTime) := by
  constructor
  · intro h
    have hn := firstRejectionTime_eq_none_of_no_failure h
    have hout : writeReportOutcome l = ⟨allSettledTime l, false⟩ := by
      unfold writeReportOutcome promiseAllOutcome
      rw [hn]
    refine ⟨hout, ?_⟩
    intro o ho
    rw [hout]
    exact (foldl_max_bounds (l.map (fun o => o.settleTime)) 0).2 _
      (List.mem_map_of_mem _ ho)
  · intro h
    have hs := firstRejectionTime_isSome_of_failure h
    cases hf : firstRejectionTime l with
    | none => exact absurd hf hs
    | some t =>
      have hout : writeReportOutcome l = ⟨t, true⟩ := by
        unfold writeReportOutcome promiseAllOutcome
        rw [hf]
      rw [hout]
      exact ⟨rfl, rfl⟩

/-- Witness for C2 amended on a concrete one task list. -/
theorem C2_report_settlement_witness :
    writeReportOutcome [⟨2, false⟩]
        = ⟨allSettledTime [(⟨2, false⟩ : TraceWriteOutcome)], false⟩ ∧
    ∀ o ∈ [(⟨2, false⟩ : TraceWriteOutcome)],
      o.settleTime ≤ (writeReportOutcome [(⟨2, false⟩ : TraceWriteOutcome)]).settleTime :=
  (C2_report_settlement [⟨2, false⟩]).1 (by decide)

/-- C3 counterexample: the distinct pairs (A.b, c) and (A, b) produce the
distinct map keys A.b.c and A.b, yet both keys are split to the same
looked up pair (A, b): resolution performs both lookups against one key,
inserts a single Field row, and returns a map with a single entry, so two
different pairs were silently merged into one field identity. -/
theorem C3_counterexample_dotted_names_merge :
    (("A.b", "c") ≠ (("A" : String), ("b" : String))) ∧
    mkKey "A.b" "c" ≠ mkKey "A" "b" ∧
    splitKey (mkKey "A.b" "c") = ("A", "b") ∧
    splitKey (mkKey "A" "b") = ("A", "b") ∧
    (ensureFieldIdMapPure [(mkKey "A.b" "c", []), (mkKey "A" "b", [])] emptyDB).1
        = [("A.b", 1)] ∧
    (ensureFieldIdMapPure [(mkKey "A.b" "c", []), (mkKey "A" "b", [])] emptyDB).2.fields
        = [{ id := 1, type := "A", name := "b" }] := by
  decide

/-- C3 amended: restricted to dot free type and field names, which holds
for every GraphQL name, the key split of ensureFieldIdMap inverts the key
construction, distinct pairs are looked up under distinct keys, and a
sequential run on a store without either field performs one insert per
pair and returns distinct ids: no two distinct dot free pairs are merged
into one field identity. -/
theorem C3_dotfree_pairs_never_merged (t1 f1 t2 f2 : String)
    (ht1 : noDot t1) (hf1 : noDot f1) (ht2 : noDot t2) (hf2 : noDot f2)
    (hne : (t1, f1) ≠ (t2, f2)) :
    splitKey (mkKey t1 f1) = (t1, f1) ∧
    splitKey (mkKey t2 f2) = (t2, f2) ∧
    splitKey (mkKey t1 f1) ≠ splitKey (mkKey t2 f2) ∧
    (ensureFieldIdsPure [(t1, f1), (t2, f2)] emptyDB).1 = [1, 2] := by
  have h1 := splitKey_mkKey t1 f1 ht1 hf1
  have h2 := splitKey_mkKey t2 f2 ht2 hf2
  have hpred : (t1 == t2 && f1 == f2) = false := by
    by_cases h : t1 = t2
    · have hf : f1 ≠ f2 := by
        intro hf
        exact hne (by rw [h, hf])
      simp [hf]
    · simp [h]
  refine ⟨h1, h2, ?_, ?_⟩
  · rw [h1, h2]
    exact hne
  · simp [ensureFieldIdsPure, selectFieldStep, insertFieldStep, emptyDB,
      List.find?, hpred]

/-- Witness for C3 amended at two concrete GraphQL field identities. -/
theorem C3_dotfree_pairs_never_merged_witness :
    splitKey (mkKey "Query" "user") = ("Query", "user") ∧
    splitKey (mkKey "User" "name") = ("User", "name") ∧
    splitKey (mkKey "Query" "user") ≠ splitKey (mkKey "User" "name") ∧
    (ensureFieldIdsPure [("Query", "user"), ("User", "name")] emptyDB).1 = [1, 2] :=
  C3_dotfree_pairs_never_merged "Query" "user" "User" "name"
    (by decide) (by decide) (by decide) (by decide) (by decide)

/-- C4: when the signature of the trace is already present in the
Operations relation, writeTrace inserts no OperationField row at all, even
though the trace may reference fields that were never linked; the junction
relation is returned unchanged. -/
theorem C4_no_operation_field_rows_for_known_signature (trace : Trace) (db : DB)
    (h : (db.operations.find? (fun op =>
        op.signature == operationSignature trace.query trace.operationName)).isSome) :
    (writeTracePure trace db).2.operationsFields = db.operationsFields :=
  (writeTracePure_spec trace db).2.2.2.2.2.2.2.2.1 h

/-- Witness for C4: a second write of the same trace against the store
produced by the first write inserts zero OperationField rows. -/
theorem C4_no_operation_field_rows_for_known_signature_witness :
    (writeTracePure twoNodeTrace (writeTracePure twoNodeTrace emptyDB).2).2.operationsFields
      = (writeTracePure twoNodeTrace emptyDB).2.operationsFields :=
  C4_no_operation_field_rows_for_known_signature twoNodeTrace
    (writeTracePure twoNodeTrace emptyDB).2 (by decide)

/-- C5: two sequential trace writes with identical query and operation
name against a store that does not yet know the signature insert exactly
one Operation row in total, resolve to the same operation id, and each
insert exactly one OperationTrace row. -/
theorem C5_identical_signature_single_operation (t1 t2 : Trace) (db : DB)
    (hq : t2.query = t1.query) (hn : t2.operationName = t1.operationName)
    (habs : db.operations.find? (fun op =>
        op.signature == operationSignature t1.query t1.operationName) = none) :
    (writeTracePure t2 (writeTracePure t1 db).2).2.operations.length
        = db.operations.length + 1 ∧
    (writeTracePure t2 (writeTracePure t1 db).2).1.operationId
        = (writeTracePure t1 db).1.operationId ∧
    (writeTracePure t1 db).2.operationTraces.length
        = db.operationTraces.length + 1 ∧
    (writeTracePure t2 (writeTracePure t1 db).2).2.operationTraces.length
        = (writeTracePure t1 db).2.operationTraces.length + 1 := by
  have hsig : operationSignature t2.query t2.operationName
      = operationSignature t1.query t1.operationName := by
    rw [hq, hn]
  have s1 := writeTracePure_spec t1 db
  have s2 := writeTracePure_spec t2 (writeTracePure t1 db).2
  have hops1 : (writeTracePure t1 db).2.operations
      = db.operations ++
        [{ id := db.nextOperationId, operation := t1.query
           name := t1.operationName
           signature := operationSignature t1.query t1.operationName }] := by
    have h7 := s1.2.2.2.2.2.2.1
    rw [habs] at h7
    exact h7
  have hfind2 : (writeTracePure t1 db).2.operations.find? (fun op =>
      op.signature == operationSignature t2.query t2.operationName)
      = some { id := db.nextOperationId, operation := t1.query
               name := t1.operationName
               signature := operationSignature t1.query t1.operationName } := by
    rw [hops1, hsig, List.find?_append, habs]
    simp
  have hid1 : (writeTracePure t1 db).1.operationId = db.nextOperationId := by
    have h8 := s1.2.2.2.2.2.2.2.1
    rw [habs] at h8
    exact h8
  have hid2 : (writeTracePure t2 (writeTracePure t1 db).2).1.operationId
      = db.nextOperationId := by
    have h8 := s2.2.2.2.2.2.2.2.1
    rw [hfind2] at h8
    exact h8
  have hops2 : (writeTracePure t2 (writeTracePure t1 db).2).2.operations
      = (writeTracePure t1 db).2.operations := by
    have h7 := s2.2.2.2.2.2.2.1
    rw [hfind2] at h7
    simpa using h7
  refine ⟨?_, ?_, ?_, ?_⟩
  · rw [hops2, hops1]
    simp
  · rw [hid2, hid1]
  · rw [s1.2.2.1]
    simp
  · rw [s2.2.2.1]
    simp

/-- Witness for C5 at a concrete trace written twice over the fresh
store. -/
theorem C5_identical_signature_single_operation_witness :
    (writeTracePure twoNodeTrace (writeTracePure twoNodeTrace emptyDB).2).2.operations.length
        = emptyDB.operations.length + 1 ∧
    (writeTracePure twoNodeTrace (writeTracePure twoNodeTrace emptyDB).2).1.operationId
        = (writeTracePure twoNodeTrace emptyDB).1.operationId ∧
    (writeTracePure twoNodeTrace emptyDB).2.operationTraces.length
        = emptyDB.operationTraces.length + 1 ∧
    (writeTracePure twoNodeTrace (writeTracePure twoNodeTrace emptyDB).2).2.operationTraces.length
        = (writeTracePure twoNodeTrace emptyDB).2.operationTraces.length + 1 :=
  C5_identical_signature_single_operation twoNodeTrace twoNodeTrace emptyDB
    rfl rfl (by decide)

/-- C6: the error rows a trace write appends decompose into the rows for
the root entry errors followed by the rows for the node errors; every row
of the first group carries exactly the captured OperationTrace id and no
FieldTrace id, and every row of the second group carries no OperationTrace
id and some FieldTrace id, so each inserted Error row has exactly one
owner. -/
theorem C6_error_rows_have_exactly_one_owner (trace : Trace) (db : DB) :
    ∃ opRows fieldRows : List ErrorModel,
      (writeTracePure trace db).2.errors = db.errors ++ opRows ++ fieldRows ∧
      opRows.all (fun e =>
        (e.operationTraceId == some (writeTracePure trace db).1.operationTraceId)
          && (e.fieldTraceId == none)) = true ∧
      fieldRows.all (fun e =>
        (e.operationTraceId == none) && e.fieldTraceId.isSome) = true := by
  refine ⟨_, _, (writeTracePure_spec trace db).2.2.2.2.2.1, ?_, ?_⟩
  · rw [all_map_general]
    apply List.all_eq_true.mpr
    intro err _
    simp
  · rw [jsMapIdx, all_flattenList]
    apply all_mapWithIndex
    intro i node
    rw [all_map_general]
    apply List.all_eq_true.mpr
    intro err _
    simp

/-- C8: one trace write appends exactly one OperationTrace row carrying
the captured generated id, the resolved operation id and the timing
columns of the trace, and appends one FieldTrace row per node of the flat
sequence; row number i of the appended batch carries the i-th captured
FieldTrace id, the dotted path of node i, the field id the node key
resolves to in the captured field id map, the captured OperationTrace id,
and the start and end times of node i. -/
theorem C8_operation_trace_and_field_trace_rows (trace : Trace) (db : DB) :
    (writeTracePure trace db).2.operationTraces
      = db.operationTraces ++
        [{ id := (writeTracePure trace db).1.operationTraceId
           operationId := (writeTracePure trace db).1.operationId
           startTime := trace.startTime, duration := trace.duration
           parsing := trace.parsing, validation := trace.validation
           execution := trace.execution }] ∧
    (writeTracePure trace db).2.fieldTraces.length
      = db.fieldTraces.length + (flatNodes trace.entry).length ∧
    (writeTracePure trace db).1.fieldTraceIds.length = (flatNodes trace.entry).length ∧
    ∀ i, i < (flatNodes trace.entry).length →
      (writeTracePure trace db).2.fieldTraces.getD (db.fieldTraces.length + i)
          { id := 0, path := "", fieldId := 0, operationTraceId := 0
            startTime := 0, endTime := 0 }
        = { id := (writeTracePure trace db).1.fieldTraceIds.getD i 0
            path := joinDot (((flatNodes trace.entry).getD i defaultFieldNode).path)
            fieldId := objGetD (writeTracePure trace db).1.fieldIdMap
              (mkKey ((flatNodes trace.entry).getD i defaultFieldNode).parentType
                ((flatNodes trace.entry).getD i defaultFieldNode).field) 0
            operationTraceId := (writeTracePure trace db).1.operationTraceId
            startTime := ((flatNodes trace.entry).getD i defaultFieldNode).startTime
            endTime := ((flatNodes trace.entry).getD i defaultFieldNode).endTime } := by
  have s := writeTracePure_spec trace db
  refine ⟨s.2.2.1, ?_, ?_, ?_⟩
  · rw [s.2.2.2.1]
    simp [length_jsMapIdx]
  · rw [s.2.2.2.2.1]
    exact length_jsMapIdx _ _
  · intro i hi
    rw [s.2.2.2.1, getD_append_right, getD_jsMapIdx _ _ defaultFieldNode i _ hi,
      s.2.2.2.2.1, getD_jsMapIdx _ _ defaultFieldNode i _ hi]

/-- Witness for C8 at the concrete two node trace over the fresh store,
instantiating the per node row description at index zero. -/
theorem C8_operation_trace_and_field_trace_rows_witness :
    (writeTracePure twoNodeTrace emptyDB).2.fieldTraces.getD (emptyDB.fieldTraces.length + 0)
        { id := 0, path := "", fieldId := 0, operationTraceId := 0
          startTime := 0, endTime := 0 }
      = { id := (writeTracePure twoNodeTrace emptyDB).1.fieldTraceIds.getD 0 0
          path := joinDot (((flatNodes twoNodeTrace.entry).getD 0 defaultFieldNode).path)
          fieldId := objGetD (writeTracePure twoNodeTrace emptyDB).1.fieldIdMap
            (mkKey ((flatNodes twoNodeTrace.entry).getD 0 defaultFieldNode).parentType
              ((flatNodes twoNodeTrace.entry).getD 0 defaultFieldNode).field) 0
          operationTraceId := (writeTracePure twoNodeTrace emptyDB).1.operationTraceId
          startTime := ((flatNodes twoNodeTrace.entry).getD 0 defaultFieldNode).startTime
          endTime := ((flatNodes twoNodeTrace.entry).getD 0 defaultFieldNode).endTime } :=
  (C8_operation_trace_and_field_trace_rows twoNodeTrace emptyDB).2.2.2 0 (by decide)

/-! ## Agreement of the effectful and the pure model

On an adapter whose init has completed, the effectful write path with its
per call client checks computes exactly the pure sequential semantics,
for some number of issued storage operations. -/

theorem ensureFieldIds_agrees_pure :
    ∀ (ps : List (String × String)) (s : StoreState), ∃ k : Nat,
      ensureFieldIds initAdapter ps s
        = (Except.ok (ensureFieldIdsPure ps s.db).1,
           { db := (ensureFieldIdsPure ps s.db).2, storageOps := s.storageOps + k })
  | [], s => ⟨0, by simp [ensureFieldIds, ensureFieldIdsPure]⟩
  | p :: rest, s => by
    cases h : s.db.fields.find? (fun row => row.type == p.1 && row.name == p.2) with
    | some row =>
      obtain ⟨k, ih⟩ := ensureFieldIds_agrees_pure rest ⟨s.db, s.storageOps + 1⟩
      refine ⟨k + 1, ?_⟩
      simp only [initAdapter] at ih
      simp [ensureFieldIds, checkedClient, initAdapter, selectFieldStep, h]
      rw [ih]
      simp [ensureFieldIdsPure, selectFieldStep, h, Nat.add_assoc]
      omega
    | none =>
      obtain ⟨k, ih⟩ := ensureFieldIds_agrees_pure rest
        ⟨(insertFieldStep p.1 p.2 s.db).2, s.storageOps + 1 + 1⟩
      refine ⟨k + 2, ?_⟩
      simp only [initAdapter, insertFieldStep] at ih
      simp [ensureFieldIds, checkedClient, initAdapter, selectFieldStep,
        insertFieldStep, h]
      rw [ih]
      simp [ensureFieldIdsPure, selectFieldStep, insertFieldStep, h, Nat.add_assoc]
      omega

theorem ensureFieldIdMap_agrees_pure (m : NormalizedTraceNodeMap) (s : StoreState) :
    ∃ k : Nat,
      ensureFieldIdMap initAdapter m s
        = (Except.ok (ensureFieldIdMapPure m s.db).1,
           { db := (ensureFieldIdMapPure m s.db).2, storageOps := s.storageOps + k }) := by
  obtain ⟨k, h⟩ := ensureFieldIds_agrees_pure ((objKeys m).map splitKey) s
  exact ⟨k, by simp [ensureFieldIdMap, ensureFieldIdMapPure, h]⟩

theorem writeTrace_agrees_pure (trace : Trace) (s : StoreState) : ∃ k : Nat,
    writeTrace initAdapter trace s
      = (Except.ok (writeTracePure trace s.db).1,
         { db := (writeTracePure trace s.db).2, storageOps := s.storageOps + k }) := by
  cases hop : s.db.operations.find? (fun op =>
      op.signature == operationSignature trace.query trace.operationName) with
  | some op =>
    obtain ⟨k, hens⟩ := ensureFieldIdMap_agrees_pure (normalizeTraceNode trace.entry)
      ⟨s.db, s.storageOps + 1⟩
    simp only [initAdapter] at hens
    by_cases he : trace.entry.errors.isEmpty
    · refine ⟨k + 4, ?_⟩
      simp [writeTrace, writeTracePure, checkedClient, initAdapter,
        selectOperationStep, hop, he]
      rw [hens]
      simp [insertOperationTraceStep, insertFieldTracesStep, insertErrorsStep, he]
      omega
    · refine ⟨k + 5, ?_⟩
      simp [writeTrace, writeTracePure, checkedClient, initAdapter,
        selectOperationStep, hop, he]
      rw [hens]
      simp [insertOperationTraceStep, insertFieldTracesStep, insertErrorsStep, he]
      omega
  | none =>
    obtain ⟨k, hens⟩ := ensureFieldIdMap_agrees_pure (normalizeTraceNode trace.entry)
      ⟨(insertOperationStep trace (operationSignature trace.query trace.operationName) s.db).2,
       s.storageOps + 1 + 1⟩
    simp only [initAdapter, insertOperationStep] at hens
    by_cases he : trace.entry.errors.isEmpty
    · refine ⟨k + 6, ?_⟩
      simp [writeTrace, writeTracePure, checkedClient, initAdapter,
        selectOperationStep, insertOperationStep, hop, he]
      rw [hens]
      simp [insertOperationsFieldsStep, insertOperationTraceStep,
        insertFieldTracesStep, insertErrorsStep, he]
      omega
    · refine ⟨k + 7, ?_⟩
      simp [writeTrace, writeTracePure, checkedClient, initAdapter,
        selectOperationStep, insertOperationStep, hop, he]
      rw [hens]
      simp [insertOperationsFieldsStep, insertOperationTraceStep,
        insertFieldTracesStep, insertErrorsStep, he]
      omega

theorem writeTraces_agrees_pure :
    ∀ (ts : List Trace) (s : StoreState), ∃ k : Nat,
      writeTraces initAdapter ts s
        = (Except.ok (),
           { db := ts.foldl (fun d t => (writeTracePure t d).2) s.db
             storageOps := s.storageOps + k })
  | [], s => ⟨0, by simp [writeTraces]⟩
  | t :: ts, s => by
    obtain ⟨k1, h1⟩ := writeTrace_agrees_pure t s
    obtain ⟨k2, h2⟩ := writeTraces_agrees_pure ts ⟨(writeTracePure t s.db).2, s.storageOps + k1⟩
    refine ⟨k1 + k2, ?_⟩
    simp [writeTraces, h1, h2, Nat.add_assoc]

theorem writeReport_agrees_pure (report : Report) (s : StoreState) : ∃ k : Nat,
    writeReport initAdapter report s
      = (Except.ok (),
         { db := writeReportPure report s.db, storageOps := s.storageOps + k }) := by
  obtain ⟨k, h⟩ := writeTraces_agrees_pure report.traces s
  exact ⟨k, by simp [writeReport, writeReportPure, h]⟩
